import Mathlib

/-!
Shallow embedding of `estimate_graph_psd` from the notebook
`demo_spherical_convolution.ipynb` of the DeepSphere repository, together
with theorems checking the specification's claims about it.

Conventions of the embedding:

* numpy float64 arithmetic is embedded as exact rational arithmetic in `ℚ`,
  except for the final elementwise division `sig_dist / eig_dist`, whose
  IEEE-754 zero-denominator behaviour (`±inf` / `NaN`, no exception) is
  modelled explicitly by `FloatVal` and `fdiv`;
* the external pygsp collaborator (`pg.filters.Itersine(graph, Nf=n_point,
  overlap=2)` followed by `g.filter(x, method='chebyshev', order=2*n_point)`)
  is modelled as an abstract per-band linear operator: `Graph.bank nf j` is
  the matrix that band `j` of the `nf`-band Itersine filter bank applies to
  a node signal.  The Chebyshev order is a function of `nf` in the source
  (always `2*nf`), so it is absorbed into `bank`.  Filtering a matrix of
  signals applies the band operator column by column, as the pygsp contract
  states (per-band output, broadcastable over node and band dimensions);
* numpy's ambient global random generator (`np.random`), which
  `np.random.binomial` reads and advances, is modelled as an explicitly
  threaded `RngState`: a seeded stream of fair bits plus the position of
  the next draw.  The source function has no generator parameter; the
  state threaded through `estimate_graph_psd` is this ambient global state;
* the source's `.squeeze()` calls are modelled faithfully by `np_squeeze`:
  a 1-d array of length 1 collapses to a 0-d scalar (`NpVec.scalar`), any
  other 1-d array is unchanged.  Consequently the final division
  `sig_dist / eig_dist` is numpy broadcasting between 1-d arrays and 0-d
  scalars (`np_div`), and the returned psd (`NpFloatVec`) is a 1-d array
  or, when both operands collapsed, a 0-d scalar with no `len()`.
-/

/-- The ambient global numpy random generator: a seeded stream of fair
bits, and the position of the next draw within that stream. -/
structure RngState where
  stream : ℕ → Bool
  pos : ℕ

/-- A graph as the estimator observes it: node count `N`, Laplacian
spectral bound `lmax`, and the external filtering capability:
`bank nf j` is the linear operator which
`g.filter(·, method='chebyshev', order=2*nf)` applies for band `j` of the
filter bank `g = pg.filters.Itersine(graph, Nf=nf, overlap=2)`. -/
structure Graph where
  N : ℕ
  lmax : ℚ
  bank : ℕ → ℕ → Fin N → Fin N → ℚ

/-- A node signal as the source accepts it: a single vector of length `N`
(a 1-d numpy array) or an `N × k` batch (column `c` is `x c`). -/
inductive Signal (N : ℕ) where
  | vec (x : Fin N → ℚ)
  | batch (k : ℕ) (x : Fin k → Fin N → ℚ)

/-- Application of one band's operator to one signal column: one column of
`g.filter(signal, method='chebyshev', order=2*n_point)`. -/
def filter_one {N : ℕ} (F : Fin N → Fin N → ℚ) (x : Fin N → ℚ) : Fin N → ℚ :=
  fun i => ∑ j, F i j * x j

/-- The per-band, per-column energy `np.sum(y**2, axis=0)` of the filtered
column `y = filter_one F x`: the sum over all nodes of the squares. -/
def band_energy {N : ℕ} (F : Fin N → Fin N → ℚ) (x : Fin N → ℚ) : ℚ :=
  ∑ i, (filter_one F x i) ^ 2

/-- Embeds `np.linspace(0, lmax, n)`: `n` evenly spaced points from `0` to
`lmax` inclusive; `[0]` when `n = 1`; `[]` when `n = 0`. -/
def linspace (lmax : ℚ) (n : ℕ) : List ℚ :=
  if n = 1 then [0]
  else (List.range n).map fun (i : ℕ) => (i : ℚ) * lmax / ((n : ℚ) - 1)

/-- A 1-d numpy array of reals, or the 0-d scalar that `.squeeze()`
produces from a length-1 array. -/
inductive NpVec where
  | arr (xs : List ℚ)
  | scalar (q : ℚ)
deriving DecidableEq

/-- Embeds numpy `.squeeze()` applied to a 1-d array: a length-1 array
collapses to a 0-d scalar, any other length is unchanged. -/
def np_squeeze (xs : List ℚ) : NpVec :=
  match xs with
  | [q] => .scalar q
  | xs => .arr xs

/-- Entry `i` of a 1-d array (with default `d` out of range); a 0-d scalar
holds its single value at every index. -/
def NpVec.getD : NpVec → ℕ → ℚ → ℚ
  | .arr xs, i, d => xs.getD i d
  | .scalar q, _, _ => q

/-- Entrywise map over a 1-d array or a 0-d scalar. -/
def NpVec.map (f : ℚ → ℚ) : NpVec → NpVec
  | .arr xs => .arr (xs.map f)
  | .scalar q => .scalar (f q)

/-- Embeds `sig_dist = np.sum(sig_filt**2, axis=0)` followed by
`if sig_dist.ndim > 1: sig_dist = np.mean(sig_dist, axis=0).squeeze()`:
per band, the sum of squares over nodes of the filtered signal; for a 2-d
batch signal it is additionally averaged over the batch dimension and then
squeezed (so at `n_point = 1` the batch path collapses to a 0-d scalar).
The 1-d vector path has no `.squeeze()` in the source body. -/
def sig_dist (G : Graph) (n_point : ℕ) (signal : Signal G.N) : NpVec :=
  match signal with
  | .vec x =>
      .arr ((List.range n_point).map fun j => band_energy (G.bank n_point j) x)
  | .batch k x =>
      np_squeeze ((List.range n_point).map fun j =>
        (∑ c, band_energy (G.bank n_point j) (x c)) / k)

/-- Embeds `rand_sig = np.random.binomial(n=1, p=0.5, size=[graph.N, n_rand])
* 2 - 1`: an `N × n_rand` matrix of `±1` entries drawn from the ambient
generator, entry `(i, c)` consuming bit `pos + i*n_rand + c` (numpy fills
the `[N, n_rand]` shape in row-major order), and the generator advanced by
the `N * n_rand` bits consumed.  Column `c` of the matrix is `(·) c`. -/
def rand_pm1_matrix (N n_rand : ℕ) (s : RngState) :
    (Fin n_rand → Fin N → ℚ) × RngState :=
  (fun c i =>
      (if s.stream (s.pos + (i.val * n_rand + c.val)) then (1 : ℚ) else 0) * 2 - 1,
   ⟨s.stream, s.pos + N * n_rand⟩)

/-- Embeds `eig_dist = np.mean(np.sum(rand_sig_filered**2, axis=0),
axis=0).squeeze()`: per band, the sum of squares over nodes of each
filtered probe column, averaged over the `n_rand` probe columns, then
squeezed (so at `n_point = 1` it collapses to a 0-d scalar). -/
def eig_dist (G : Graph) (n_rand n_point : ℕ)
    (rand_sig : Fin n_rand → Fin G.N → ℚ) : NpVec :=
  np_squeeze ((List.range n_point).map fun j =>
    (∑ c, band_energy (G.bank n_point j) (rand_sig c)) / n_rand)

/-- An IEEE float value as needed to model the result of the final
division: a finite value, `+inf`, `-inf`, or `NaN`. -/
inductive FloatVal where
  | fin (q : ℚ)
  | inf
  | negInf
  | nan
deriving DecidableEq

/-- IEEE-754 division, as numpy performs `sig_dist / eig_dist` elementwise:
a zero denominator yields `±inf` for a nonzero numerator and `NaN` for a
zero numerator; no exception is raised. -/
def fdiv (a b : ℚ) : FloatVal :=
  if b = 0 then (if 0 < a then .inf else if a < 0 then .negInf else .nan)
  else .fin (a / b)

/-- IEEE multiplication of a float value by a rational scalar:
`0 * (±inf) = NaN` and anything times `NaN` is `NaN`. -/
def fscale (a : ℚ) : FloatVal → FloatVal
  | .fin q => .fin (a * q)
  | .inf => if 0 < a then .inf else if a < 0 then .negInf else .nan
  | .negInf => if 0 < a then .negInf else if a < 0 then .inf else .nan
  | .nan => .nan

/-- A 1-d numpy array of float values, or a 0-d scalar: the shape of the
psd that `sig_dist / eig_dist` produces under numpy broadcasting. -/
inductive NpFloatVec where
  | arr (xs : List FloatVal)
  | scalar (v : FloatVal)
deriving DecidableEq

/-- Embeds the elementwise numpy division `sig_dist / eig_dist` with
broadcasting between 1-d arrays and 0-d scalars: two 1-d arrays divide
elementwise, a 0-d scalar broadcasts against a 1-d array, and two 0-d
scalars produce a 0-d scalar. -/
def np_div (a b : NpVec) : NpFloatVec :=
  match a, b with
  | .arr xs, .arr ys => .arr (List.zipWith fdiv xs ys)
  | .arr xs, .scalar e => .arr (xs.map fun q => fdiv q e)
  | .scalar q, .arr ys => .arr (ys.map fun e => fdiv q e)
  | .scalar q, .scalar e => .scalar (fdiv q e)

/-- Entry `i` of a 1-d float array (default `d` out of range); a 0-d
scalar holds its single value at every index. -/
def NpFloatVec.getD : NpFloatVec → ℕ → FloatVal → FloatVal
  | .arr xs, i, d => xs.getD i d
  | .scalar v, _, _ => v

/-- Entrywise map over a 1-d float array or a 0-d float scalar. -/
def NpFloatVec.map (f : FloatVal → FloatVal) : NpFloatVec → NpFloatVec
  | .arr xs => .arr (xs.map f)
  | .scalar v => .scalar (f v)

/-- Embeds Python `len(...)`: defined (`some`) only for a 1-d array; on a
0-d scalar `len()` raises `TypeError`, modelled as `none`. -/
def NpFloatVec.len : NpFloatVec → Option ℕ
  | .arr xs => some xs.length
  | .scalar _ => none

/-- Embeds `estimate_graph_psd(graph, signal, n_rand=10, n_point=30)` from
the notebook (the defaults are `n_rand = 10`, `n_point = 30`).  The
returned pair is `((spectrum, psd), ambient generator state after the
call)`; the source returns only `(spectrum, psd)` and advances the ambient
`np.random` state as a side effect.  The function body performs no
argument validation, exactly as the source does. -/
def estimate_graph_psd (graph : Graph) (signal : Signal graph.N)
    (n_rand n_point : ℕ) (rng : RngState) :
    (List ℚ × NpFloatVec) × RngState :=
  let spectrum := linspace graph.lmax n_point
  let sd := sig_dist graph n_point signal
  let pr := rand_pm1_matrix graph.N n_rand rng
  let ed := eig_dist graph n_rand n_point pr.1
  let psd_values := np_div sd ed
  ((spectrum, psd_values), pr.2)

/-- Entrywise scaling of a signal by a scalar `c` (i.e. `c * signal`). -/
def Signal.smul {N : ℕ} (c : ℚ) : Signal N → Signal N
  | .vec x => .vec fun i => c * x i
  | .batch k x => .batch k fun col i => c * x col i

/-- Concrete one-node graph with `lmax = 2` whose band operators are the
identity on the single node; used for concrete evaluations. -/
def oneNodeGraph : Graph := ⟨1, 2, fun _ _ _ _ => 1⟩

/-- Concrete two-node graph with `lmax = 2` whose band operator has rows
`(1, -1)`: it annihilates the constant probe column `(1, 1)`, producing a
degenerate band when every drawn probe bit is `1`. -/
def degGraph : Graph := ⟨2, 2, fun _ _ _ j => if j = 0 then 1 else -1⟩

/-- Concrete ambient generator state: every bit reads `true`, position 0. -/
def allTrueRng : RngState := ⟨fun _ => true, 0⟩

/-- Concrete ambient generator state whose first five bits read `true` and
the rest `false`; agrees with `allTrueRng` on short prefixes. -/
def windowRng : RngState := ⟨fun t => decide (t < 5), 0⟩

/-- The per-band signal energy, per index: the value `sig_dist` stores at
band `j`. -/
def sig_energy_at (G : Graph) (n_point : ℕ) (signal : Signal G.N) (j : ℕ) : ℚ :=
  match signal with
  | .vec x => band_energy (G.bank n_point j) x
  | .batch k x => (∑ c, band_energy (G.bank n_point j) (x c)) / k

/-- The per-band reference energy, per index: the value `eig_dist` stores
at band `j`. -/
def eig_energy_at (G : Graph) (n_rand n_point : ℕ)
    (rand_sig : Fin n_rand → Fin G.N → ℚ) (j : ℕ) : ℚ :=
  (∑ c, band_energy (G.bank n_point j) (rand_sig c)) / n_rand

lemma np_squeeze_nil : np_squeeze ([] : List ℚ) = NpVec.arr [] := rfl

lemma np_squeeze_singleton (q : ℚ) : np_squeeze [q] = NpVec.scalar q := rfl

lemma np_squeeze_of_length_ne_one (xs : List ℚ) (h : xs.length ≠ 1) :
    np_squeeze xs = NpVec.arr xs := by
  cases xs with
  | nil => rfl
  | cons a t =>
    cases t with
    | nil => exact absurd rfl h
    | cons b t2 => rfl

lemma np_squeeze_map (f : ℚ → ℚ) (xs : List ℚ) :
    np_squeeze (xs.map f) = NpVec.map f (np_squeeze xs) := by
  cases xs with
  | nil => rfl
  | cons a t =>
    cases t with
    | nil => rfl
    | cons b t2 => rfl

lemma np_div_arr_arr (xs ys : List ℚ) :
    np_div (NpVec.arr xs) (NpVec.arr ys) = NpFloatVec.arr (List.zipWith fdiv xs ys) := rfl

lemma np_div_arr_scalar (xs : List ℚ) (e : ℚ) :
    np_div (NpVec.arr xs) (NpVec.scalar e) =
      NpFloatVec.arr (xs.map fun q => fdiv q e) := rfl

lemma np_div_scalar_scalar (q e : ℚ) :
    np_div (NpVec.scalar q) (NpVec.scalar e) = NpFloatVec.scalar (fdiv q e) := rfl

lemma getD_map_range {α : Type} (f : ℕ → α) {n i : ℕ} (hi : i < n) (d : α) :
    (((List.range n).map f).getD i d) = f i := by
  rw [List.getD_eq_getElem?_getD, List.getElem?_map, List.getElem?_range hi]
  rfl

lemma getD_np_squeeze (xs : List ℚ) {i : ℕ} (hi : i < xs.length) (d : ℚ) :
    (np_squeeze xs).getD i d = xs.getD i d := by
  cases xs with
  | nil => exact absurd hi (by simp)
  | cons a t =>
    cases t with
    | nil =>
      have h0 : i = 0 := Nat.lt_one_iff.mp (by simpa using hi)
      subst h0
      rfl
    | cons b t2 => rfl

lemma getD_zipWith_fdiv (xs ys : List ℚ) {i : ℕ} (hx : i < xs.length)
    (hy : i < ys.length) (d : FloatVal) :
    (List.zipWith fdiv xs ys).getD i d = fdiv (xs.getD i 0) (ys.getD i 0) := by
  rw [List.getD_eq_getElem?_getD, List.getElem?_zipWith, List.getElem?_eq_getElem hx,
    List.getElem?_eq_getElem hy, List.getD_eq_getElem?_getD,
    List.getElem?_eq_getElem hx, List.getD_eq_getElem?_getD,
    List.getElem?_eq_getElem hy]
  rfl

lemma sig_dist_getD (G : Graph) (n_point : ℕ) (signal : Signal G.N)
    {i : ℕ} (hi : i < n_point) :
    (sig_dist G n_point signal).getD i 0 = sig_energy_at G n_point signal i := by
  cases signal with
  | vec x =>
      show ((List.range n_point).map fun j =>
        band_energy (G.bank n_point j) x).getD i 0 = _
      rw [getD_map_range _ hi]
      rfl
  | batch k x =>
      show (np_squeeze ((List.range n_point).map fun j =>
        (∑ c, band_energy (G.bank n_point j) (x c)) / k)).getD i 0 = _
      rw [getD_np_squeeze _ (by simpa using hi), getD_map_range _ hi]
      rfl

lemma eig_dist_getD (G : Graph) (n_rand n_point : ℕ)
    (rand_sig : Fin n_rand → Fin G.N → ℚ) {i : ℕ} (hi : i < n_point) :
    (eig_dist G n_rand n_point rand_sig).getD i 0 =
      eig_energy_at G n_rand n_point rand_sig i := by
  show (np_squeeze ((List.range n_point).map fun j =>
    (∑ c, band_energy (G.bank n_point j) (rand_sig c)) / n_rand)).getD i 0 = _
  rw [getD_np_squeeze _ (by simpa using hi), getD_map_range _ hi]
  rfl

lemma psd_getD (G : Graph) (signal : Signal G.N) (n_rand n_point : ℕ)
    (s : RngState) {i : ℕ} (hi : i < n_point) :
    ((estimate_graph_psd G signal n_rand n_point s).1.2).getD i .nan =
      fdiv (sig_energy_at G n_point signal i)
        (eig_energy_at G n_rand n_point (rand_pm1_matrix G.N n_rand s).1 i) := by
  by_cases h1 : n_point = 1
  · subst h1
    have h0 : i = 0 := Nat.lt_one_iff.mp hi
    subst h0
    cases signal with
    | vec x =>
        show (np_div
            (NpVec.arr ((List.range 1).map fun j => band_energy (G.bank 1 j) x))
            (np_squeeze ((List.range 1).map fun j =>
              (∑ c, band_energy (G.bank 1 j) ((rand_pm1_matrix G.N n_rand s).1 c)) /
                n_rand))).getD 0 .nan = _
        have hr1 : List.range 1 = [0] := rfl
        simp only [hr1, List.map_cons, List.map_nil, np_squeeze_singleton,
          np_div_arr_scalar]
        rfl
    | batch k x =>
        show (np_div
            (np_squeeze ((List.range 1).map fun j =>
              (∑ c, band_energy (G.bank 1 j) (x c)) / k))
            (np_squeeze ((List.range 1).map fun j =>
              (∑ c, band_energy (G.bank 1 j) ((rand_pm1_matrix G.N n_rand s).1 c)) /
                n_rand))).getD 0 .nan = _
        have hr1 : List.range 1 = [0] := rfl
        simp only [hr1, List.map_cons, List.map_nil, np_squeeze_singleton,
          np_div_scalar_scalar]
        rfl
  · have hed : ((List.range n_point).map fun j =>
        (∑ c, band_energy (G.bank n_point j) ((rand_pm1_matrix G.N n_rand s).1 c)) /
          (n_rand : ℚ)).length ≠ 1 := by simpa using h1
    cases signal with
    | vec x =>
        show (np_div
            (NpVec.arr ((List.range n_point).map fun j =>
              band_energy (G.bank n_point j) x))
            (np_squeeze ((List.range n_point).map fun j =>
              (∑ c, band_energy (G.bank n_point j) ((rand_pm1_matrix G.N n_rand s).1 c)) /
                n_rand))).getD i .nan = _
        rw [np_squeeze_of_length_ne_one _ hed, np_div_arr_arr]
        show (List.zipWith fdiv ((List.range n_point).map fun j =>
            band_energy (G.bank n_point j) x)
          ((List.range n_point).map fun j =>
            (∑ c, band_energy (G.bank n_point j) ((rand_pm1_matrix G.N n_rand s).1 c)) /
              n_rand)).getD i .nan = _
        rw [getD_zipWith_fdiv _ _ (by simpa using hi) (by simpa using hi),
          getD_map_range _ hi, getD_map_range _ hi]
        rfl
    | batch k x =>
        show (np_div
            (np_squeeze ((List.range n_point).map fun j =>
              (∑ c, band_energy (G.bank n_point j) (x c)) / k))
            (np_squeeze ((List.range n_point).map fun j =>
              (∑ c, band_energy (G.bank n_point j) ((rand_pm1_matrix G.N n_rand s).1 c)) /
                n_rand))).getD i .nan = _
        have hsd : ((List.range n_point).map fun j =>
            (∑ c, band_energy (G.bank n_point j) (x c)) / (k : ℚ)).length ≠ 1 := by
          simpa using h1
        rw [np_squeeze_of_length_ne_one _ hsd, np_squeeze_of_length_ne_one _ hed,
          np_div_arr_arr]
        show (List.zipWith fdiv ((List.range n_point).map fun j =>
            (∑ c, band_energy (G.bank n_point j) (x c)) / k)
          ((List.range n_point).map fun j =>
            (∑ c, band_energy (G.bank n_point j) ((rand_pm1_matrix G.N n_rand s).1 c)) /
              n_rand)).getD i .nan = _
        rw [getD_zipWith_fdiv _ _ (by simpa using hi) (by simpa using hi),
          getD_map_range _ hi, getD_map_range _ hi]
        rfl

lemma band_energy_nonneg {N : ℕ} (F : Fin N → Fin N → ℚ) (x : Fin N → ℚ) :
    0 ≤ band_energy F x :=
  Finset.sum_nonneg fun _ _ => sq_nonneg _

lemma sig_energy_at_nonneg (G : Graph) (n_point : ℕ) (signal : Signal G.N)
    (j : ℕ) : 0 ≤ sig_energy_at G n_point signal j := by
  cases signal with
  | vec x => exact band_energy_nonneg _ _
  | batch k x =>
      exact div_nonneg (Finset.sum_nonneg fun _ _ => band_energy_nonneg _ _)
        (Nat.cast_nonneg k)

lemma eig_energy_at_nonneg (G : Graph) (n_rand n_point : ℕ)
    (rand_sig : Fin n_rand → Fin G.N → ℚ) (j : ℕ) :
    0 ≤ eig_energy_at G n_rand n_point rand_sig j :=
  div_nonneg (Finset.sum_nonneg fun _ _ => band_energy_nonneg _ _)
    (Nat.cast_nonneg n_rand)

lemma linspace_length (lmax : ℚ) (n : ℕ) : (linspace lmax n).length = n := by
  by_cases h : n = 1
  · rw [linspace, if_pos h, h]; rfl
  · rw [linspace, if_neg h, List.length_map, List.length_range]

lemma linspace_getD (lmax : ℚ) {n i : ℕ} (h2 : 2 ≤ n) (hi : i < n) :
    (linspace lmax n).getD i 0 = (i : ℚ) * lmax / ((n : ℚ) - 1) := by
  have hn : n ≠ 1 := by omega
  rw [linspace, if_neg hn, getD_map_range _ hi]

lemma linspace_sub_one_ne_zero {n : ℕ} (h2 : 2 ≤ n) : ((n : ℚ) - 1) ≠ 0 := by
  have : (2 : ℚ) ≤ (n : ℚ) := by exact_mod_cast h2
  linarith

lemma linspace_sorted (lmax : ℚ) (n : ℕ) (hl : 0 ≤ lmax) :
    List.Sorted (fun a b => a ≤ b) (linspace lmax n) := by
  by_cases h1 : n = 1
  · rw [linspace, if_pos h1]
    exact List.sorted_singleton 0
  · rw [linspace, if_neg h1]
    rcases Nat.lt_or_ge n 2 with h2 | h2
    · have : n = 0 := by omega
      subst this
      simp
    · have hd : (0 : ℚ) < (n : ℚ) - 1 := by
        have : (2 : ℚ) ≤ (n : ℚ) := by exact_mod_cast h2
        linarith
      refine List.pairwise_map.mpr ((List.pairwise_lt_range n).imp ?_)
      intro a b hab
      refine (div_le_div_iff_of_pos_right hd).mpr ?_
      have hab2 : (a : ℚ) ≤ (b : ℚ) := by exact_mod_cast hab.le
      exact mul_le_mul_of_nonneg_right hab2 hl

lemma filter_one_smul {N : ℕ} (F : Fin N → Fin N → ℚ) (c : ℚ) (x : Fin N → ℚ) :
    filter_one F (fun i => c * x i) = fun i => c * filter_one F x i := by
  funext i
  rw [filter_one, filter_one, Finset.mul_sum]
  exact Finset.sum_congr rfl fun j _ => by ring

lemma band_energy_smul {N : ℕ} (F : Fin N → Fin N → ℚ) (c : ℚ) (x : Fin N → ℚ) :
    band_energy F (fun i => c * x i) = c ^ 2 * band_energy F x := by
  rw [band_energy, band_energy, Finset.mul_sum]
  refine Finset.sum_congr rfl fun i _ => ?_
  rw [filter_one_smul]
  ring

lemma fdiv_sq_smul (c a b : ℚ) : fdiv (c ^ 2 * a) b = fscale (c ^ 2) (fdiv a b) := by
  by_cases hb : b = 0
  · rcases eq_or_ne c 0 with hc | hc
    · subst hc
      have h0 : (0 : ℚ) ^ 2 = 0 := by norm_num
      rcases lt_trichotomy a 0 with h | h | h
      · simp [fdiv, fscale, hb, h, h.not_lt, h0]
      · subst h
        simp [fdiv, fscale, hb, h0]
      · simp [fdiv, fscale, hb, h, h.not_lt, h0]
    · have hc2 : (0 : ℚ) < c ^ 2 := by positivity
      rcases lt_trichotomy a 0 with h | h | h
      · have hca : c ^ 2 * a < 0 := mul_neg_of_pos_of_neg hc2 h
        simp [fdiv, hb, fscale, h, hca, hc2, not_lt_of_lt hca, not_lt_of_lt h]
      · subst h
        simp [fdiv, hb, fscale]
      · have hca : 0 < c ^ 2 * a := mul_pos hc2 h
        simp [fdiv, hb, fscale, h, hca, hc2]
  · rw [fdiv, if_neg hb, fdiv, if_neg hb, fscale, mul_div_assoc]

/-- Claim C2: for every input and every band `i < n_point` whose reference
energy is non-zero, the psd entry at band `i` equals the signal energy of
band `i` (sum over nodes of squares of the filtered signal, averaged over
the batch columns when the signal is a batch) divided by the reference
energy of band `i` (mean over the `n_rand` probe columns of the sum over
nodes of squares of the filtered probe ensemble). -/
theorem psd_eq_energy_ratio (G : Graph) (signal : Signal G.N) (n_rand n_point : ℕ)
    (s : RngState) (i : ℕ) (hi : i < n_point)
    (hnz : (eig_dist G n_rand n_point (rand_pm1_matrix G.N n_rand s).1).getD i 0 ≠ 0) :
    ((estimate_graph_psd G signal n_rand n_point s).1.2).getD i .nan =
      .fin ((sig_dist G n_point signal).getD i 0 /
        (eig_dist G n_rand n_point (rand_pm1_matrix G.N n_rand s).1).getD i 0) ∧
    (sig_dist G n_point signal).getD i 0 =
      (match signal with
        | .vec x => ∑ node, (filter_one (G.bank n_point i) x node) ^ 2
        | .batch k x =>
            (∑ c, ∑ node, (filter_one (G.bank n_point i) (x c) node) ^ 2) / k) ∧
    (eig_dist G n_rand n_point (rand_pm1_matrix G.N n_rand s).1).getD i 0 =
      (∑ c, ∑ node,
        (filter_one (G.bank n_point i) ((rand_pm1_matrix G.N n_rand s).1 c) node) ^ 2) /
        n_rand := by
  refine ⟨?_, ?_, ?_⟩
  · rw [psd_getD G signal n_rand n_point s hi, sig_dist_getD G n_point signal hi,
      eig_dist_getD G n_rand n_point _ hi]
    rw [eig_dist_getD G n_rand n_point _ hi] at hnz
    rw [fdiv, if_neg hnz]
  · rw [sig_dist_getD G n_point signal hi]
    cases signal <;> rfl
  · rw [eig_dist_getD G n_rand n_point _ hi]
    rfl

/-- Closed witness for `psd_eq_energy_ratio` at a concrete input. -/
theorem psd_eq_energy_ratio_witness :
    ((estimate_graph_psd oneNodeGraph (Signal.vec fun _ => 3) 1 1 allTrueRng).1.2).getD 0 .nan =
      .fin ((sig_dist oneNodeGraph 1 (Signal.vec fun _ => 3)).getD 0 0 /
        (eig_dist oneNodeGraph 1 1 (rand_pm1_matrix oneNodeGraph.N 1 allTrueRng).1).getD 0 0) :=
  (psd_eq_energy_ratio oneNodeGraph (Signal.vec fun _ => 3) 1 1 allTrueRng 0
    (by norm_num)
    (by
      simp [eig_dist, band_energy, filter_one, oneNodeGraph, rand_pm1_matrix,
        allTrueRng, Fin.sum_univ_one, List.range_succ, np_squeeze, NpVec.getD] <;>
        norm_num)).1

/-- Claim C5 (amended): `len(spectrum) = n_point` for every valid input;
`len(psd) = n_point` whenever `n_point ≠ 1`, and also at `n_point = 1` for
a 1-d vector signal; but for a 2-d batch signal with `n_point = 1` the
source's final `.squeeze()` collapses the psd to a 0-d scalar, which has
no `len()` (see the counterexample). -/
theorem output_lengths_eq_n_point (G : Graph) (signal : Signal G.N)
    (n_rand n_point : ℕ) (s : RngState)
    (h1 : 1 ≤ n_rand) (h2 : 1 ≤ n_point) :
    ((estimate_graph_psd G signal n_rand n_point s).1.1).length = n_point ∧
    (n_point ≠ 1 →
      ((estimate_graph_psd G signal n_rand n_point s).1.2).len = some n_point) ∧
    (∀ x : Fin G.N → ℚ, signal = Signal.vec x →
      ((estimate_graph_psd G signal n_rand n_point s).1.2).len = some n_point) ∧
    (∀ (k : ℕ) (x : Fin k → Fin G.N → ℚ), signal = Signal.batch k x →
      n_point = 1 →
      ∃ v : FloatVal,
        (estimate_graph_psd G signal n_rand n_point s).1.2 =
          NpFloatVec.scalar v) := by
  have harr : n_point ≠ 1 →
      ((estimate_graph_psd G signal n_rand n_point s).1.2).len = some n_point := by
    intro hne
    cases signal with
    | vec x =>
        show (np_div
            (NpVec.arr ((List.range n_point).map fun j =>
              band_energy (G.bank n_point j) x))
            (np_squeeze ((List.range n_point).map fun j =>
              (∑ c, band_energy (G.bank n_point j) ((rand_pm1_matrix G.N n_rand s).1 c)) /
                n_rand))).len = some n_point
        rw [np_squeeze_of_length_ne_one ((List.range n_point).map fun j =>
            (∑ c, band_energy (G.bank n_point j) ((rand_pm1_matrix G.N n_rand s).1 c)) /
              (n_rand : ℚ)) (by simpa using hne), np_div_arr_arr]
        show some (List.zipWith fdiv ((List.range n_point).map fun j =>
            band_energy (G.bank n_point j) x)
          ((List.range n_point).map fun j =>
            (∑ c, band_energy (G.bank n_point j) ((rand_pm1_matrix G.N n_rand s).1 c)) /
              n_rand)).length = some n_point
        rw [List.length_zipWith]
        simp
    | batch k x =>
        show (np_div
            (np_squeeze ((List.range n_point).map fun j =>
              (∑ c, band_energy (G.bank n_point j) (x c)) / k))
            (np_squeeze ((List.range n_point).map fun j =>
              (∑ c, band_energy (G.bank n_point j) ((rand_pm1_matrix G.N n_rand s).1 c)) /
                n_rand))).len = some n_point
        rw [np_squeeze_of_length_ne_one ((List.range n_point).map fun j =>
            (∑ c, band_energy (G.bank n_point j) (x c)) / (k : ℚ))
            (by simpa using hne),
          np_squeeze_of_length_ne_one ((List.range n_point).map fun j =>
            (∑ c, band_energy (G.bank n_point j) ((rand_pm1_matrix G.N n_rand s).1 c)) /
              (n_rand : ℚ)) (by simpa using hne), np_div_arr_arr]
        show some (List.zipWith fdiv ((List.range n_point).map fun j =>
            (∑ c, band_energy (G.bank n_point j) (x c)) / k)
          ((List.range n_point).map fun j =>
            (∑ c, band_energy (G.bank n_point j) ((rand_pm1_matrix G.N n_rand s).1 c)) /
              n_rand)).length = some n_point
        rw [List.length_zipWith]
        simp
  refine ⟨linspace_length G.lmax n_point, harr, ?_, ?_⟩
  · intro x hx
    by_cases hne : n_point = 1
    · subst hx
      subst hne
      show (np_div
          (NpVec.arr ((List.range 1).map fun j => band_energy (G.bank 1 j) x))
          (np_squeeze ((List.range 1).map fun j =>
            (∑ c, band_energy (G.bank 1 j) ((rand_pm1_matrix G.N n_rand s).1 c)) /
              n_rand))).len = some 1
      have hr1 : List.range 1 = [0] := rfl
      simp only [hr1, List.map_cons, List.map_nil, np_squeeze_singleton,
        np_div_arr_scalar]
      rfl
    · exact harr hne
  · intro k x hx hne
    subst hx
    subst hne
    exact ⟨fdiv ((∑ c, band_energy (G.bank 1 0) (x c)) / k)
      ((∑ c, band_energy (G.bank 1 0) ((rand_pm1_matrix G.N n_rand s).1 c)) / n_rand),
      rfl⟩

/-- Closed witness for `output_lengths_eq_n_point` at a concrete input. -/
theorem output_lengths_eq_n_point_witness :
    ((estimate_graph_psd oneNodeGraph (Signal.vec fun _ => 3) 1 2 allTrueRng).1.1).length = 2 ∧
    ((estimate_graph_psd oneNodeGraph (Signal.vec fun _ => 3) 1 2 allTrueRng).1.2).len =
      some 2 :=
  ⟨(output_lengths_eq_n_point oneNodeGraph (Signal.vec fun _ => 3) 1 2 allTrueRng
      (by norm_num) (by norm_num)).1,
   (output_lengths_eq_n_point oneNodeGraph (Signal.vec fun _ => 3) 1 2 allTrueRng
      (by norm_num) (by norm_num)).2.1 (by norm_num)⟩

/-- Counterexample to claim C5 as stated: for a batch signal with
`n_point = 1` — a valid input — the source's final `.squeeze()` collapses
the psd to a 0-d scalar, on which `len()` is undefined (numpy raises
`TypeError`); so `len(psd) == n_point` fails there. -/
theorem psd_scalar_at_one_point_batch :
    (estimate_graph_psd oneNodeGraph (Signal.batch 1 fun _ _ => 1) 1 1 allTrueRng).1.2 =
      NpFloatVec.scalar (FloatVal.fin 1) ∧
    ((estimate_graph_psd oneNodeGraph (Signal.batch 1 fun _ _ => 1) 1 1 allTrueRng).1.2).len ≠
      some 1 := by
  have h : (estimate_graph_psd oneNodeGraph (Signal.batch 1 fun _ _ => 1) 1 1
      allTrueRng).1.2 = NpFloatVec.scalar (FloatVal.fin 1) := by
    simp [estimate_graph_psd, sig_dist, eig_dist, band_energy, filter_one, fdiv,
      np_div, np_squeeze, oneNodeGraph, rand_pm1_matrix, allTrueRng,
      Fin.sum_univ_one, List.range_succ] <;> norm_num
  refine ⟨h, ?_⟩
  rw [h]
  decide

/-- Claim C7: on every band whose reference energy is non-zero, the psd
entry is a non-negative finite value, being a ratio of sums of squares. -/
theorem psd_nonneg (G : Graph) (signal : Signal G.N) (n_rand n_point : ℕ)
    (s : RngState) (i : ℕ) (hi : i < n_point)
    (hnz : (eig_dist G n_rand n_point (rand_pm1_matrix G.N n_rand s).1).getD i 0 ≠ 0) :
    ∃ q : ℚ, 0 ≤ q ∧
      ((estimate_graph_psd G signal n_rand n_point s).1.2).getD i .nan = .fin q := by
  rw [eig_dist_getD G n_rand n_point _ hi] at hnz
  refine ⟨sig_energy_at G n_point signal i /
    eig_energy_at G n_rand n_point (rand_pm1_matrix G.N n_rand s).1 i, ?_, ?_⟩
  · exact div_nonneg (sig_energy_at_nonneg G n_point signal i)
      (eig_energy_at_nonneg G n_rand n_point _ i)
  · rw [psd_getD G signal n_rand n_point s hi, fdiv, if_neg hnz]

/-- Closed witness for `psd_nonneg` at a concrete input. -/
theorem psd_nonneg_witness :
    ∃ q : ℚ, 0 ≤ q ∧
      ((estimate_graph_psd oneNodeGraph (Signal.vec fun _ => 3) 1 1 allTrueRng).1.2).getD 0 .nan =
        .fin q :=
  psd_nonneg oneNodeGraph (Signal.vec fun _ => 3) 1 1 allTrueRng 0
    (by norm_num)
    (by
      simp [eig_dist, band_energy, filter_one, oneNodeGraph, rand_pm1_matrix,
        allTrueRng, Fin.sum_univ_one, List.range_succ, np_squeeze, NpVec.getD] <;>
        norm_num)

lemma band_energy_zero_input {N : ℕ} (F : Fin N → Fin N → ℚ) :
    band_energy F (fun _ => 0) = 0 := by
  simp [band_energy, filter_one]

/-- Claim C8 (amended): for the all-zero signal, every band whose reference
energy is non-zero gets psd entry exactly `0`; degenerate bands get `NaN`
instead (see the counterexample), because numpy computes `0 / 0 = NaN`. -/
theorem zero_signal_zero_psd (G : Graph) (n_rand n_point : ℕ) (s : RngState)
    (i : ℕ) (hi : i < n_point)
    (hnz : (eig_dist G n_rand n_point (rand_pm1_matrix G.N n_rand s).1).getD i 0 ≠ 0) :
    ((estimate_graph_psd G (Signal.vec fun _ => 0) n_rand n_point s).1.2).getD i .nan =
      .fin 0 := by
  rw [eig_dist_getD G n_rand n_point _ hi] at hnz
  rw [psd_getD G _ n_rand n_point s hi]
  have hs : sig_energy_at G n_point (Signal.vec fun _ => 0) i = 0 :=
    band_energy_zero_input (G.bank n_point i)
  rw [hs, fdiv, if_neg hnz, zero_div]

/-- Closed witness for `zero_signal_zero_psd` at a concrete input. -/
theorem zero_signal_zero_psd_witness :
    ((estimate_graph_psd oneNodeGraph (Signal.vec fun _ => 0) 1 1 allTrueRng).1.2).getD 0 .nan =
      .fin 0 :=
  zero_signal_zero_psd oneNodeGraph 1 1 allTrueRng 0 (by norm_num)
    (by
      simp [eig_dist, band_energy, filter_one, oneNodeGraph, rand_pm1_matrix,
        allTrueRng, Fin.sum_univ_one, List.range_succ, np_squeeze, NpVec.getD] <;>
        norm_num)

/-- Counterexample to claim C8 as stated: on a degenerate band (reference
energy `0`), the zero signal yields `NaN`, not `0`, because numpy evaluates
`0 / 0` to `NaN`. -/
theorem zero_signal_nan_on_degenerate_band :
    (estimate_graph_psd degGraph (Signal.vec fun _ => 0) 1 1 allTrueRng).1.2 =
      NpFloatVec.arr [FloatVal.nan] ∧ FloatVal.nan ≠ FloatVal.fin 0 := by
  constructor
  · simp [estimate_graph_psd, sig_dist, eig_dist, band_energy, filter_one, fdiv,
      np_div, np_squeeze, degGraph, rand_pm1_matrix, allTrueRng, linspace,
      Fin.sum_univ_two, Fin.sum_univ_one, List.range_succ] <;> norm_num
  · decide

/-- Claim C4 (amended): a zero reference energy in band `i` is not guarded
against: the band's psd entry is the IEEE quotient, `NaN` when the band's
signal energy is also zero and `+inf` when it is positive; no error is
signalled. -/
theorem degenerate_band_ieee_division (G : Graph) (signal : Signal G.N)
    (n_rand n_point : ℕ) (s : RngState) (i : ℕ) (hi : i < n_point)
    (hz : (eig_dist G n_rand n_point (rand_pm1_matrix G.N n_rand s).1).getD i 0 = 0) :
    ((estimate_graph_psd G signal n_rand n_point s).1.2).getD i .nan =
      (if (sig_dist G n_point signal).getD i 0 = 0 then FloatVal.nan
       else FloatVal.inf) := by
  rw [eig_dist_getD G n_rand n_point _ hi] at hz
  rw [psd_getD G signal n_rand n_point s hi, sig_dist_getD G n_point signal hi, hz]
  by_cases hs : sig_energy_at G n_point signal i = 0
  · rw [if_pos hs, hs, fdiv]
    simp
  · rw [if_neg hs]
    have hpos : 0 < sig_energy_at G n_point signal i :=
      lt_of_le_of_ne (sig_energy_at_nonneg G n_point signal i) (Ne.symm hs)
    rw [fdiv, if_pos rfl, if_pos hpos]

/-- Closed witness for `degenerate_band_ieee_division` at a concrete
input. -/
theorem degenerate_band_ieee_division_witness :
    ((estimate_graph_psd degGraph (Signal.vec fun i => if i.val = 0 then 1 else 0)
        1 1 allTrueRng).1.2).getD 0 .nan =
      (if (sig_dist degGraph 1 (Signal.vec fun i => if i.val = 0 then 1 else 0)).getD 0 0 = 0
       then FloatVal.nan else FloatVal.inf) :=
  degenerate_band_ieee_division degGraph (Signal.vec fun i => if i.val = 0 then 1 else 0)
    1 1 allTrueRng 0 (by norm_num)
    (by
      simp [eig_dist, band_energy, filter_one, degGraph, rand_pm1_matrix,
        allTrueRng, Fin.sum_univ_two, Fin.sum_univ_one, List.range_succ, np_squeeze,
        NpVec.getD] <;> norm_num)

/-- Counterexample to claim C4 as stated: on a band with zero reference
energy and positive signal energy the returned entry is `+inf` — silently
propagated, not the `NaN` sentinel and not an explicit error. -/
theorem degenerate_band_yields_inf :
    (estimate_graph_psd degGraph (Signal.vec fun i => if i.val = 0 then 1 else 0)
        1 1 allTrueRng).1.2 = NpFloatVec.arr [FloatVal.inf] ∧
    FloatVal.inf ≠ FloatVal.nan := by
  constructor
  · simp [estimate_graph_psd, sig_dist, eig_dist, band_energy, filter_one, fdiv,
      np_div, np_squeeze, degGraph, rand_pm1_matrix, allTrueRng, linspace,
      Fin.sum_univ_two, Fin.sum_univ_one, List.range_succ] <;> norm_num
  · decide

/-- Claim C1 (amended): `estimate_graph_psd` performs no input validation
and raises no error itself: a call with `n_point = 0` returns normally,
with empty spectrum and psd. -/
theorem no_input_validation (G : Graph) (signal : Signal G.N) (n_rand : ℕ)
    (s : RngState) :
    (estimate_graph_psd G signal n_rand 0 s).1 = ([], NpFloatVec.arr []) := by
  cases signal with
  | vec x =>
      simp [estimate_graph_psd, sig_dist, eig_dist, linspace, np_div, np_squeeze]
  | batch k x =>
      simp [estimate_graph_psd, sig_dist, eig_dist, linspace, np_div, np_squeeze]

/-- Counterexample to claim C1 as stated: a concrete call with
`n_point = 0` returns the value `([], [])` instead of raising
`InvalidArgument` — the source performs no argument validation. -/
theorem npoint_zero_returns_normally :
    (estimate_graph_psd oneNodeGraph (Signal.vec fun _ => 1) 1 0 allTrueRng).1 =
      ([], NpFloatVec.arr []) := by
  simp [estimate_graph_psd, sig_dist, eig_dist, linspace, np_div, np_squeeze]

/-- Claim C3 (amended): the returned spectrum is `linspace(0, lmax,
n_point)`: for `n_point ≥ 2` entry `i` is `i * lmax / (n_point - 1)`, for
`n_point = 1` it is `[0]`; its first entry is `0` (for `n_point ≥ 1`), its
last entry equals `lmax` for `n_point ≥ 2` (for `n_point = 1` the last
entry is `0`, not `lmax` — see the counterexample), and it is
non-decreasing whenever `lmax ≥ 0`. -/
theorem spectrum_linspace_spec (G : Graph) (signal : Signal G.N)
    (n_rand n_point : ℕ) (s : RngState) :
    (2 ≤ n_point → ∀ i : ℕ, i < n_point →
      ((estimate_graph_psd G signal n_rand n_point s).1.1).getD i 0 =
        (i : ℚ) * G.lmax / ((n_point : ℚ) - 1)) ∧
    (n_point = 1 → (estimate_graph_psd G signal n_rand n_point s).1.1 = [0]) ∧
    (1 ≤ n_point →
      ((estimate_graph_psd G signal n_rand n_point s).1.1).getD 0 0 = 0) ∧
    (2 ≤ n_point →
      ((estimate_graph_psd G signal n_rand n_point s).1.1).getD (n_point - 1) 0 =
        G.lmax) ∧
    (0 ≤ G.lmax →
      List.Sorted (fun a b => a ≤ b)
        ((estimate_graph_psd G signal n_rand n_point s).1.1)) := by
  have hsp : (estimate_graph_psd G signal n_rand n_point s).1.1 =
      linspace G.lmax n_point := rfl
  rw [hsp]
  refine ⟨?_, ?_, ?_, ?_, ?_⟩
  · intro h2 i hi
    exact linspace_getD G.lmax h2 hi
  · intro h1
    rw [linspace, if_pos h1]
  · intro h1
    by_cases h : n_point = 1
    · rw [linspace, if_pos h]
      rfl
    · have h2 : 2 ≤ n_point := by omega
      rw [linspace_getD G.lmax h2 (by omega)]
      norm_num
  · intro h2
    rw [linspace_getD G.lmax h2 (by omega)]
    have h1 : 1 ≤ n_point := by omega
    rw [Nat.cast_sub h1, Nat.cast_one, mul_comm, mul_div_assoc,
      div_self (linspace_sub_one_ne_zero h2), mul_one]
  · intro hl
    exact linspace_sorted G.lmax n_point hl

/-- Closed witness for `spectrum_linspace_spec` at a concrete input. -/
theorem spectrum_linspace_spec_witness :
    ((estimate_graph_psd oneNodeGraph (Signal.vec fun _ => 1) 1 3 allTrueRng).1.1).getD 2 0 =
      ((2 : ℕ) : ℚ) * oneNodeGraph.lmax / (((3 : ℕ) : ℚ) - 1) ∧
    ((estimate_graph_psd oneNodeGraph (Signal.vec fun _ => 1) 1 3 allTrueRng).1.1).getD (3 - 1) 0 =
      oneNodeGraph.lmax ∧
    List.Sorted (fun a b => a ≤ b)
      ((estimate_graph_psd oneNodeGraph (Signal.vec fun _ => 1) 1 3 allTrueRng).1.1) :=
  ⟨(spectrum_linspace_spec oneNodeGraph (Signal.vec fun _ => 1) 1 3 allTrueRng).1
      (by norm_num) 2 (by norm_num),
   (spectrum_linspace_spec oneNodeGraph (Signal.vec fun _ => 1) 1 3 allTrueRng).2.2.2.1
      (by norm_num),
   (spectrum_linspace_spec oneNodeGraph (Signal.vec fun _ => 1) 1 3 allTrueRng).2.2.2.2
      (by norm_num [oneNodeGraph])⟩

/-- Counterexample to claim C3 as stated: with `n_point = 1` and
`lmax = 2`, the spectrum is `[0]`, so its last entry (`spectrum[n_point-1]`)
is `0`, not `graph.lmax`. -/
theorem spectrum_last_ne_lmax_at_one_point :
    (estimate_graph_psd oneNodeGraph (Signal.vec fun _ => 1) 1 1 allTrueRng).1.1 = [0] ∧
    ((estimate_graph_psd oneNodeGraph (Signal.vec fun _ => 1) 1 1 allTrueRng).1.1).getD
        (1 - 1) 0 ≠ oneNodeGraph.lmax := by
  constructor
  · rfl
  · simp [estimate_graph_psd, linspace, oneNodeGraph] <;> norm_num

lemma sig_dist_smul (G : Graph) (n_point : ℕ) (c : ℚ) (signal : Signal G.N) :
    sig_dist G n_point (signal.smul c) =
      NpVec.map (fun q => c ^ 2 * q) (sig_dist G n_point signal) := by
  cases signal with
  | vec x =>
      show NpVec.arr ((List.range n_point).map fun j =>
          band_energy (G.bank n_point j) fun i => c * x i) =
        NpVec.map (fun q => c ^ 2 * q) (NpVec.arr ((List.range n_point).map fun j =>
          band_energy (G.bank n_point j) x))
      show _ = NpVec.arr (((List.range n_point).map fun j =>
        band_energy (G.bank n_point j) x).map fun q => c ^ 2 * q)
      rw [List.map_map]
      have hfun : (fun j => band_energy (G.bank n_point j) fun i => c * x i) =
          ((fun q => c ^ 2 * q) ∘ fun j => band_energy (G.bank n_point j) x) :=
        funext fun j => band_energy_smul (G.bank n_point j) c x
      rw [hfun]
  | batch k x =>
      show np_squeeze ((List.range n_point).map fun j =>
          (∑ col, band_energy (G.bank n_point j) fun i => c * x col i) / k) =
        NpVec.map (fun q => c ^ 2 * q) (np_squeeze ((List.range n_point).map fun j =>
          (∑ col, band_energy (G.bank n_point j) (x col)) / k))
      rw [← np_squeeze_map, List.map_map]
      have hfun : (fun j =>
          (∑ col, band_energy (G.bank n_point j) fun i => c * x col i) / (k : ℚ)) =
          ((fun q => c ^ 2 * q) ∘ fun j =>
            (∑ col, band_energy (G.bank n_point j) (x col)) / k) := by
        funext j
        show (∑ col, band_energy (G.bank n_point j) fun i => c * x col i) / (k : ℚ) =
          c ^ 2 * ((∑ col, band_energy (G.bank n_point j) (x col)) / k)
        rw [show (∑ col, band_energy (G.bank n_point j) fun i => c * x col i) =
              c ^ 2 * ∑ col, band_energy (G.bank n_point j) (x col) by
            rw [Finset.mul_sum]
            exact Finset.sum_congr rfl fun col _ => band_energy_smul _ _ _]
        rw [mul_div_assoc]
      rw [hfun]

lemma zipWith_fdiv_scale (c : ℚ) :
    ∀ (xs ys : List ℚ),
      List.zipWith fdiv (xs.map fun q => c ^ 2 * q) ys =
        (List.zipWith fdiv xs ys).map (fscale (c ^ 2))
  | [], _ => by simp
  | _ :: _, [] => by simp
  | x :: xt, y :: yt => by
      simp only [List.map_cons, List.zipWith_cons_cons]
      rw [fdiv_sq_smul, zipWith_fdiv_scale c xt yt]

lemma np_div_scale (c : ℚ) (a b : NpVec) :
    np_div (NpVec.map (fun q => c ^ 2 * q) a) b =
      (np_div a b).map (fscale (c ^ 2)) := by
  cases a with
  | arr xs =>
      cases b with
      | arr ys =>
          show NpFloatVec.arr (List.zipWith fdiv (xs.map fun q => c ^ 2 * q) ys) =
            NpFloatVec.arr ((List.zipWith fdiv xs ys).map (fscale (c ^ 2)))
          rw [zipWith_fdiv_scale]
      | scalar e =>
          show NpFloatVec.arr ((xs.map fun q => c ^ 2 * q).map fun q => fdiv q e) =
            NpFloatVec.arr ((xs.map fun q => fdiv q e).map (fscale (c ^ 2)))
          rw [List.map_map, List.map_map]
          have hfun : ((fun q => fdiv q e) ∘ fun q => c ^ 2 * q) =
              (fscale (c ^ 2) ∘ fun q => fdiv q e) :=
            funext fun q => fdiv_sq_smul c q e
          rw [hfun]
  | scalar q =>
      cases b with
      | arr ys =>
          show NpFloatVec.arr (ys.map fun e => fdiv (c ^ 2 * q) e) =
            NpFloatVec.arr ((ys.map fun e => fdiv q e).map (fscale (c ^ 2)))
          rw [List.map_map]
          have hfun : (fun e => fdiv (c ^ 2 * q) e) =
              (fscale (c ^ 2) ∘ fun e => fdiv q e) :=
            funext fun e => fdiv_sq_smul c q e
          rw [hfun]
      | scalar e =>
          show NpFloatVec.scalar (fdiv (c ^ 2 * q) e) =
            NpFloatVec.scalar (fscale (c ^ 2) (fdiv q e))
          rw [fdiv_sq_smul]

/-- Claim C10: with the probe ensemble held fixed (same ambient generator
state), scaling the input signal by `c` scales every psd entry by `c ^ 2`
(in the IEEE sense captured by `fscale`, which also covers degenerate
bands), while the returned spectrum and the generator state after the call
are unchanged. -/
theorem psd_scale_equivariant (G : Graph) (signal : Signal G.N) (c : ℚ)
    (n_rand n_point : ℕ) (s : RngState) :
    (estimate_graph_psd G (signal.smul c) n_rand n_point s).1.2 =
      ((estimate_graph_psd G signal n_rand n_point s).1.2).map (fscale (c ^ 2)) ∧
    (estimate_graph_psd G (signal.smul c) n_rand n_point s).1.1 =
      (estimate_graph_psd G signal n_rand n_point s).1.1 ∧
    (estimate_graph_psd G (signal.smul c) n_rand n_point s).2 =
      (estimate_graph_psd G signal n_rand n_point s).2 := by
  refine ⟨?_, rfl, rfl⟩
  show np_div (sig_dist G n_point (signal.smul c))
      (eig_dist G n_rand n_point (rand_pm1_matrix G.N n_rand s).1) =
    (np_div (sig_dist G n_point signal)
      (eig_dist G n_rand n_point (rand_pm1_matrix G.N n_rand s).1)).map (fscale (c ^ 2))
  rw [sig_dist_smul, np_div_scale]

lemma rand_pm1_matrix_congr (N n_rand : ℕ) (s1 s2 : RngState)
    (h : ∀ t : ℕ, t < N * n_rand →
      s1.stream (s1.pos + t) = s2.stream (s2.pos + t)) :
    (rand_pm1_matrix N n_rand s1).1 = (rand_pm1_matrix N n_rand s2).1 := by
  funext c i
  have hc := c.isLt
  have hb : i.val * n_rand + c.val < N * n_rand := by
    have h1 : i.val * n_rand + c.val < (i.val + 1) * n_rand := by
      rw [Nat.succ_mul]
      omega
    have h2 : (i.val + 1) * n_rand ≤ N * n_rand :=
      Nat.mul_le_mul_right n_rand i.isLt
    omega
  show (if s1.stream (s1.pos + (i.val * n_rand + c.val)) then (1 : ℚ) else 0) * 2 - 1 =
    (if s2.stream (s2.pos + (i.val * n_rand + c.val)) then (1 : ℚ) else 0) * 2 - 1
  rw [h _ hb]

/-- Claim C6 (amended): the estimator is deterministic given the seeded
ambient generator: whenever two ambient states carry the same upcoming
`G.N * n_rand` bits, the two calls return identical `(spectrum, psd)`
pairs.  (The randomness nevertheless comes from the ambient global
generator, which the call advances — see the counterexample — not from an
injected generator parameter.) -/
theorem psd_deterministic_given_stream (G : Graph) (signal : Signal G.N)
    (n_rand n_point : ℕ) (s1 s2 : RngState)
    (h : ∀ t : ℕ, t < G.N * n_rand →
      s1.stream (s1.pos + t) = s2.stream (s2.pos + t)) :
    (estimate_graph_psd G signal n_rand n_point s1).1 =
      (estimate_graph_psd G signal n_rand n_point s2).1 := by
  show ((linspace G.lmax n_point,
      np_div (sig_dist G n_point signal)
        (eig_dist G n_rand n_point (rand_pm1_matrix G.N n_rand s1).1)) :
      List ℚ × NpFloatVec) =
    (linspace G.lmax n_point,
      np_div (sig_dist G n_point signal)
        (eig_dist G n_rand n_point (rand_pm1_matrix G.N n_rand s2).1))
  rw [rand_pm1_matrix_congr G.N n_rand s1 s2 h]

/-- Closed witness for `psd_deterministic_given_stream`: two different
ambient states agreeing on the consumed window produce equal outputs. -/
theorem psd_deterministic_given_stream_witness :
    (estimate_graph_psd oneNodeGraph (Signal.vec fun _ => 1) 1 1 allTrueRng).1 =
      (estimate_graph_psd oneNodeGraph (Signal.vec fun _ => 1) 1 1 windowRng).1 :=
  psd_deterministic_given_stream oneNodeGraph (Signal.vec fun _ => 1) 1 1
    allTrueRng windowRng (by decide)

/-- Counterexample to claim C6 as stated: the call consumes and advances
the ambient global generator state (its position moves forward by
`G.N * n_rand`), so the randomness is ambient global state, not an
explicit injected generator parameter. -/
theorem call_advances_ambient_rng :
    (estimate_graph_psd oneNodeGraph (Signal.vec fun _ => 1) 1 1 allTrueRng).2.pos ≠
      allTrueRng.pos := by
  decide

/-- Claim C9: the probe ensemble is an `N × n_rand` matrix whose entries
take only the values `1` and `-1`; distinct entries read distinct
positions of the generator stream (the shallow counterpart of independent
draws); the call consumes exactly `N * n_rand` fresh draws, advancing the
ambient state; and the returned value consists only of the spectrum and
the psd — the ensemble itself is not part of the result. -/
theorem probe_ensemble_spec (G : Graph) (signal : Signal G.N)
    (n_rand n_point : ℕ) (s : RngState) :
    (∀ (c : Fin n_rand) (i : Fin G.N),
        (rand_pm1_matrix G.N n_rand s).1 c i = 1 ∨
        (rand_pm1_matrix G.N n_rand s).1 c i = -1) ∧
    (∀ (c cc : Fin n_rand) (i ii : Fin G.N),
        i.val * n_rand + c.val = ii.val * n_rand + cc.val → i = ii ∧ c = cc) ∧
    (estimate_graph_psd G signal n_rand n_point s).2.stream = s.stream ∧
    (estimate_graph_psd G signal n_rand n_point s).2.pos = s.pos + G.N * n_rand ∧
    (estimate_graph_psd G signal n_rand n_point s).1 =
      (linspace G.lmax n_point,
       np_div (sig_dist G n_point signal)
         (eig_dist G n_rand n_point (rand_pm1_matrix G.N n_rand s).1)) := by
  refine ⟨?_, ?_, rfl, rfl, rfl⟩
  · intro c i
    by_cases hbit : s.stream (s.pos + (i.val * n_rand + c.val))
    · left
      show (if s.stream (s.pos + (i.val * n_rand + c.val)) then (1 : ℚ) else 0) * 2 - 1 = 1
      rw [if_pos hbit]
      norm_num
    · right
      show (if s.stream (s.pos + (i.val * n_rand + c.val)) then (1 : ℚ) else 0) * 2 - 1 = -1
      rw [if_neg hbit]
      norm_num
  · intro c cc i ii hEq
    have hc := c.isLt
    have hcc := cc.isLt
    have hnr : 0 < n_rand := by omega
    have e1 : i.val = ii.val := by
      have d1 : (i.val * n_rand + c.val) / n_rand = i.val := by
        rw [Nat.mul_comm, Nat.mul_add_div hnr, Nat.div_eq_of_lt hc, Nat.add_zero]
      have d2 : (ii.val * n_rand + cc.val) / n_rand = ii.val := by
        rw [Nat.mul_comm, Nat.mul_add_div hnr, Nat.div_eq_of_lt hcc, Nat.add_zero]
      rw [← d1, ← d2, hEq]
    have e2 : c.val = cc.val := by
      rw [e1] at hEq
      exact Nat.add_left_cancel hEq
    exact ⟨Fin.ext e1, Fin.ext e2⟩

/-- A concrete node index of `oneNodeGraph`. -/
def node0 : Fin oneNodeGraph.N := ⟨0, Nat.one_pos⟩

/-- Closed witness for `probe_ensemble_spec` at a concrete input,
exercising the entry-range conjunct and the distinct-positions conjunct. -/
theorem probe_ensemble_spec_witness :
    ((rand_pm1_matrix oneNodeGraph.N 1 allTrueRng).1 0 node0 = 1 ∨
      (rand_pm1_matrix oneNodeGraph.N 1 allTrueRng).1 0 node0 = -1) ∧
    (node0 = node0 ∧ (0 : Fin 1) = 0) :=
  ⟨(probe_ensemble_spec oneNodeGraph (Signal.vec fun _ => 1) 1 1 allTrueRng).1 0 node0,
   (probe_ensemble_spec oneNodeGraph (Signal.vec fun _ => 1) 1 1 allTrueRng).2.1
     0 0 node0 node0 rfl⟩
